import Mathlib

/-!
Verification of the document-collection core (`litstudy/common.py`).

A shallow embedding of the document-collection core: the `DocumentSet`
collection algebra (`filter`, `filter_duplicates`, `union`, `difference`),
the `DocumentID` identifier resolver (`parse_scopus`, `parse_dblp`,
`parse_bibtex`), and the keyword-argument constructors of `Document`,
`Author` and `Affiliation`.

Python strings are modelled as `List Char`; Python's `None`-able values as
`Option`; a `KeyError` that may escape a function as `Except String`
(carrying the Python `KeyError` argument); Python sets of keys as lists
used only through membership.
-/

set_option autoImplicit false

namespace LitStudy

/-- Python strings, modelled as their character lists. -/
abbrev Str := List Char

/-- Elements of a list tagged with their zero-based position, starting
from `n`.  Used to state position-dependent properties of the scans. -/
def indexed {D : Type} (n : Nat) : List D → List (Nat × D)
  | [] => []
  | d :: ds => (n, d) :: indexed (n + 1) ds

/-! ## DocumentID: the identifier resolver -/

/-- `DocumentID`: field `id` is the identifier value (`None`-able string),
`is_doi` records whether it is a persistent identifier. -/
structure DocumentID where
  id : Option Str
  is_doi : Bool
  deriving DecidableEq, Repr

/-- `DocumentID.__init__(self, doc_id=None)`: sets `self.id = doc_id`,
`self.is_doi = False`. -/
def DocumentID.init (doc_id : Option Str) : DocumentID :=
  { id := doc_id, is_doi := false }

/-- `DocumentID()` called with no argument: the default `doc_id=None`. -/
def DocumentID.initDefault : DocumentID := DocumentID.init none

/-- Python truthiness of a `None`-able string: `None` and `""` are falsy. -/
def pyTruthy : Option Str → Bool
  | none => false
  | some s => !s.isEmpty

/-- A Scopus abstract as consumed by `parse_scopus`: the three attributes
read by the code, each a `None`-able string. -/
structure ScopusAbstract where
  doi : Option Str
  eid : Option Str
  title : Option Str
  deriving DecidableEq, Repr

/-- `DocumentID.parse_scopus`: `if scopus_abstract.doi: ... elif
scopus_abstract.eid: ... else: ...`; only the `doi` branch sets
`is_doi = True`, the other branches assign `id` only and leave `is_doi`
at its previous value. -/
def DocumentID.parse_scopus (self : DocumentID) (a : ScopusAbstract) : DocumentID :=
  if pyTruthy a.doi then
    { id := a.doi, is_doi := true }
  else if pyTruthy a.eid then
    { self with id := a.eid }
  else
    { self with id := a.title }

/-- The `"info"` sub-dictionary of a DBLP result: the two keys the code
reads, `none` meaning the key is absent. -/
structure DblpInfo where
  doi : Option Str
  title : Option Str
  deriving DecidableEq, Repr

/-- A DBLP result dictionary: `none` means the `"info"` key is absent. -/
structure DblpResult where
  info : Option DblpInfo
  deriving DecidableEq, Repr

/-- Python `d[k]`: returns the value or raises `KeyError(k)`. -/
def dictGet {A : Type} (name : String) (v : Option A) : Except String A :=
  match v with
  | some a => Except.ok a
  | none => Except.error name

/-- `DocumentID.parse_dblp`: `try: self.id = dblp_result["info"]["doi"];
self.is_doi = True except KeyError: self.id = dblp_result["info"]["title"]`.
A `KeyError` raised inside the `except` block propagates. -/
def DocumentID.parse_dblp (self : DocumentID) (r : DblpResult) : Except String DocumentID :=
  match (dictGet "info" r.info).bind (fun i => dictGet "doi" i.doi) with
  | Except.ok doi => Except.ok { id := some doi, is_doi := true }
  | Except.error _ =>
    (dictGet "info" r.info).bind fun i =>
      (dictGet "title" i.title).map fun t => { self with id := some t }

/-! ### Python `str.replace(old, "")` on character lists

`delOccAux old skip s` scans `s` left to right; while `skip > 0` it copies
nothing and decrements (it is inside a matched occurrence); at `skip = 0`
it tests whether `old` starts at the current position and, if so, drops
the occurrence (non-overlapping, left-to-right, exactly Python's
`str.replace` with an empty replacement). -/

/-- `leadsWith p s`: `s` starts with `p`. -/
def leadsWith : List Char → List Char → Bool
  | [], _ => true
  | _ :: _, [] => false
  | p :: ps, c :: cs => p == c && leadsWith ps cs

/-- `hasOccur p s`: `p` occurs as a contiguous substring of `s`. -/
def hasOccur (p : List Char) : List Char → Bool
  | [] => p.isEmpty
  | c :: cs => leadsWith p (c :: cs) || hasOccur p cs

/-- Left-to-right scan deleting non-overlapping occurrences of `old`;
`skip` counts characters still to drop from a matched occurrence. -/
def delOccAux (old : List Char) : Nat → List Char → List Char
  | _, [] => []
  | Nat.succ n, _ :: cs => delOccAux old n cs
  | 0, c :: cs =>
    if leadsWith old (c :: cs) then delOccAux old (old.length - 1) cs
    else c :: delOccAux old 0 cs

/-- Python `s.replace(old, "")` (for Python, replacing by the empty string
with an empty pattern also returns `s` unchanged). -/
def pyReplaceDel (old s : List Char) : List Char :=
  if old.isEmpty then s else delOccAux old 0 s

/-- `"http://doi.org/"`. -/
def doiUrl1 : List Char := "http://doi.org/".toList

/-- `"http://doi.ieeecomputersociety.org/"`. -/
def doiUrl2 : List Char := "http://doi.ieeecomputersociety.org/".toList

/-- A BibTeX entry as consumed by `parse_bibtex`: the two keys the code
reads, `none` meaning the key is absent. -/
structure BibtexEntry where
  doi : Option Str
  title : Option Str
  deriving DecidableEq, Repr

/-- `DocumentID.parse_bibtex`: `try: self.id = bibtex_entry["doi"];
self.id = self.id.replace("http://doi.org/", ""); self.id =
self.id.replace("http://doi.ieeecomputersociety.org/", "");
self.is_doi = True except KeyError: self.id = bibtex_entry["title"]`.
A `KeyError` on the `title` lookup inside the `except` block propagates. -/
def DocumentID.parse_bibtex (self : DocumentID) (e : BibtexEntry) : Except String DocumentID :=
  match e.doi with
  | some v =>
    let v1 := pyReplaceDel doiUrl1 v
    let v2 := pyReplaceDel doiUrl2 v1
    Except.ok { id := some v2, is_doi := true }
  | none =>
    match e.title with
    | some t => Except.ok { self with id := some t }
    | none => Except.error "title"

/-! ## Record model: Document, Author, Affiliation -/

/-- `Document`: `id` and `title` are required, all other fields default to
`None`.  `I` is the type of the `id` value, `V` of every other field value
(Python is untyped; the constructors treat values opaquely). -/
structure Document (I V : Type) where
  id : I
  title : V
  authors : Option V
  keywords : Option V
  abstract : Option V
  references : Option V
  year : Option V
  source : Option V
  source_type : Option V
  citation_count : Option V
  _internal : Option V
  language : Option V
  publisher : Option V
  deriving DecidableEq, Repr

/-- `Author`: `name` required, `orcid` and `affiliations` optional. -/
structure Author (V : Type) where
  orcid : Option V
  name : V
  affiliations : Option V
  deriving DecidableEq, Repr

/-- `Affiliation`: `name` required, `city` and `country` optional. -/
structure Affiliation (V : Type) where
  name : V
  city : Option V
  country : Option V
  deriving DecidableEq, Repr

/-- Python `kwargs.pop(k, None)` on a keyword dictionary (modelled as an
association list with distinct keys): the value found, if any, and the
dictionary with that entry removed. -/
def popKey {V : Type} (k : String) : List (String × V) → Option V × List (String × V)
  | [] => (none, [])
  | (k', v) :: rest =>
    if k' = k then (some v, rest)
    else
      let r := popKey k rest
      (r.1, (k', v) :: r.2)

/-- The message of the `KeyError` raised on a leftover keyword argument. -/
def unexpectedMsg (k : String) : String :=
  "got an unexpected keyword argument " ++ k

/-- The keyword names `Document.__init__` pops, in pop order. -/
def docFieldNames : List String :=
  ["id", "title", "authors", "keywords", "abstract", "references", "year",
   "source", "source_type", "citation_count", "internal", "language", "publisher"]

/-- The keyword names `Author.__init__` pops, in pop order. -/
def authorFieldNames : List String := ["orcid", "name", "affiliations"]

/-- The keyword names `Affiliation.__init__` pops, in pop order. -/
def affiliationFieldNames : List String := ["name", "city", "country"]

/-- `Document.__init__(self, **kwargs)`: pops `id` and `title` (required:
`kwargs.pop` without default raises `KeyError` on the key), pops each
optional field with default `None`, and raises
`KeyError('got an unexpected keyword argument <k>')` for the first
leftover key `k` if any remain. -/
def document_init {V : Type} (kw : List (String × V)) : Except String (Document V V) :=
  match popKey "id" kw with
  | (none, _) => Except.error "id"
  | (some idv, kw1) =>
    match popKey "title" kw1 with
    | (none, _) => Except.error "title"
    | (some titlev, kw2) =>
      let p3 := popKey "authors" kw2
      let p4 := popKey "keywords" p3.2
      let p5 := popKey "abstract" p4.2
      let p6 := popKey "references" p5.2
      let p7 := popKey "year" p6.2
      let p8 := popKey "source" p7.2
      let p9 := popKey "source_type" p8.2
      let p10 := popKey "citation_count" p9.2
      let p11 := popKey "internal" p10.2
      let p12 := popKey "language" p11.2
      let p13 := popKey "publisher" p12.2
      match p13.2 with
      | [] => Except.ok
          { id := idv, title := titlev, authors := p3.1, keywords := p4.1,
            abstract := p5.1, references := p6.1, year := p7.1, source := p8.1,
            source_type := p9.1, citation_count := p10.1, _internal := p11.1,
            language := p12.1, publisher := p13.1 }
      | (kk, _) :: _ => Except.error (unexpectedMsg kk)

/-- `Author.__init__(self, **kwargs)`: pops `orcid` (optional), `name`
(required), `affiliations` (optional), then rejects leftovers. -/
def author_init {V : Type} (kw : List (String × V)) : Except String (Author V) :=
  let p1 := popKey "orcid" kw
  match popKey "name" p1.2 with
  | (none, _) => Except.error "name"
  | (some nv, kw2) =>
    let p3 := popKey "affiliations" kw2
    match p3.2 with
    | [] => Except.ok { orcid := p1.1, name := nv, affiliations := p3.1 }
    | (kk, _) :: _ => Except.error (unexpectedMsg kk)

/-- `Affiliation.__init__(self, **kwargs)`: pops `name` (required),
`city`, `country` (optional), then rejects leftovers. -/
def affiliation_init {V : Type} (kw : List (String × V)) : Except String (Affiliation V) :=
  match popKey "name" kw with
  | (none, _) => Except.error "name"
  | (some nv, kw1) =>
    let p2 := popKey "city" kw1
    let p3 := popKey "country" p2.2
    match p3.2 with
    | [] => Except.ok { name := nv, city := p2.1, country := p3.1 }
    | (kk, _) :: _ => Except.error (unexpectedMsg kk)

/-! ## DocumentSet: the collection algebra -/

/-- `DocumentSet`: holds the list of documents (`self.docs`). -/
structure DocumentSet (D : Type) where
  docs : List D

/-- `DocumentSet.filter(predicate)`:
`DocumentSet([d for d in self.docs if predicate(d)])`. -/
def DocumentSet.filter {D : Type} (s : DocumentSet D) (predicate : D → Bool) : DocumentSet D :=
  DocumentSet.mk (s.docs.filter predicate)

/-- The loop of `filter_duplicates`: `seen` is the `keys` set (modelled as
a list used through membership only); a document is appended to the result
exactly when its key is not in `seen`, and then its key is added. -/
def filterDupAux {D K : Type} [DecidableEq K] (key : D → K) : List D → List K → List D
  | [], _ => []
  | d :: ds, seen =>
    if key d ∈ seen then filterDupAux key ds seen
    else d :: filterDupAux key ds (key d :: seen)

/-- `DocumentSet.filter_duplicates(key)` with an explicit key function
(the `key is not None` path; the `None` default is
`DocumentSet.filter_duplicatesPy`). -/
def DocumentSet.filter_duplicates {D K : Type} [DecidableEq K]
    (s : DocumentSet D) (key : D → K) : DocumentSet D :=
  DocumentSet.mk (filterDupAux key s.docs [])

/-- `DocumentSet.union(other, key)`:
`DocumentSet(self.docs + other.docs).filter_duplicates(key=key)`. -/
def DocumentSet.union {D K : Type} [DecidableEq K]
    (s other : DocumentSet D) (key : D → K) : DocumentSet D :=
  (DocumentSet.mk (s.docs ++ other.docs)).filter_duplicates key

/-- `DocumentSet.difference(other, key)`: builds the set of `other`'s keys
and keeps, in order, the documents of `self` whose key is not in it. -/
def DocumentSet.difference {D K : Type} [DecidableEq K]
    (s other : DocumentSet D) (key : D → K) : DocumentSet D :=
  DocumentSet.mk (s.docs.filter (fun d => !decide (key d ∈ other.docs.map key)))

/-- The `default_key` closure of `filter_duplicates` and `difference`:
`document.id.id`. -/
def default_key {V : Type} (d : Document DocumentID V) : Option Str :=
  d.id.id

/-- `filter_duplicates` with its Python signature `key=None`: a `None`
key becomes `default_key`. -/
def DocumentSet.filter_duplicatesPy {V : Type} (s : DocumentSet (Document DocumentID V))
    (key : Option (Document DocumentID V → Option Str)) : DocumentSet (Document DocumentID V) :=
  s.filter_duplicates (match key with | none => default_key | some f => f)

/-- `union` with its Python signature `key=None`. -/
def DocumentSet.unionPy {V : Type} (s other : DocumentSet (Document DocumentID V))
    (key : Option (Document DocumentID V → Option Str)) : DocumentSet (Document DocumentID V) :=
  (DocumentSet.mk (s.docs ++ other.docs)).filter_duplicatesPy key

/-- `difference` with its Python signature `key=None`: a `None` key
becomes its own `default_key` closure (same body as the one in
`filter_duplicates`). -/
def DocumentSet.differencePy {V : Type} (s other : DocumentSet (Document DocumentID V))
    (key : Option (Document DocumentID V → Option Str)) : DocumentSet (Document DocumentID V) :=
  s.difference other (match key with | none => default_key | some f => f)

/-- The first keyword of `kw` whose name is not in `names` (the key the
leftover-check reports). -/
def firstBad (names : List String) {V : Type} (kw : List (String × V)) : String :=
  (((kw.map Prod.fst).filter (fun s => !decide (s ∈ names)))).headD ""

/-! ## Lemmas on `indexed` -/

theorem indexed_le {D : Type} : ∀ (l : List D) (n : Nat), ∀ p ∈ indexed n l, n ≤ p.1
  | [], _ => by intro p hp; simp [indexed] at hp
  | d :: ds, n => by
    intro p hp
    simp only [indexed, List.mem_cons] at hp
    rcases hp with rfl | hp
    · exact Nat.le_refl n
    · exact Nat.le_of_succ_le (indexed_le ds (n + 1) p hp)

theorem indexed_filter_snd {D : Type} (p : D → Bool) :
    ∀ (l : List D) (n : Nat),
      ((indexed n l).filter (fun q => p q.2)).map Prod.snd = l.filter p
  | [], _ => rfl
  | d :: ds, n => by
    by_cases h : p d
    · simp [indexed, List.filter_cons, h, indexed_filter_snd p ds (n + 1)]
    · simp [indexed, List.filter_cons, h, indexed_filter_snd p ds (n + 1)]

/-! ## Lemmas on `filterDupAux` -/

section FilterDup

variable {D K : Type} [DecidableEq K] (key : D → K)

/-- The `keys` set is used only through membership: replacing it by any
membership-equivalent list leaves the result unchanged. -/
theorem filterDupAux_congr :
    ∀ (l : List D) (s1 s2 : List K), (∀ x, x ∈ s1 ↔ x ∈ s2) →
      filterDupAux key l s1 = filterDupAux key l s2
  | [], _, _, _ => rfl
  | d :: ds, s1, s2, hiff => by
    by_cases h : key d ∈ s1
    · have h2 : key d ∈ s2 := (hiff _).1 h
      simp only [filterDupAux, if_pos h, if_pos h2]
      exact filterDupAux_congr ds s1 s2 hiff
    · have h2 : key d ∉ s2 := fun hc => h ((hiff _).2 hc)
      simp only [filterDupAux, if_neg h, if_neg h2]
      refine congrArg _ (filterDupAux_congr ds _ _ ?_)
      intro x
      simp [List.mem_cons, hiff x]

/-- Position-level characterization of the scan: a document at position
`i` (counting from `n`) survives iff its key is not in `seen` and has not
occurred among the keys of the earlier documents of `l`. -/
theorem filterDupAux_indexed :
    ∀ (l : List D) (seen : List K) (n : Nat),
      filterDupAux key l seen =
        ((indexed n l).filter
          (fun p => !decide (key p.2 ∈ seen ∨ key p.2 ∈ (l.take (p.1 - n)).map key))).map
          Prod.snd
  | [], _, _ => rfl
  | d :: ds, seen, n => by
    have htail : ∀ p ∈ indexed (n + 1) ds, ∀ s : List K,
        (!decide (key p.2 ∈ s ∨ key p.2 ∈ ((d :: ds).take (p.1 - n)).map key)) =
          !decide (key p.2 ∈ s ∨ key p.2 = key d ∨ key p.2 ∈ (ds.take (p.1 - (n + 1))).map key) := by
      intro p hp s
      have hn1 : n + 1 ≤ p.1 := indexed_le ds (n + 1) p hp
      have htake : (d :: ds).take (p.1 - n) = d :: ds.take (p.1 - (n + 1)) := by
        have hq : p.1 - n = (p.1 - (n + 1)) + 1 := by omega
        rw [hq, List.take_succ_cons]
      rw [htake]
      refine congrArg (fun b => !b) (decide_eq_decide.mpr ?_)
      simp only [List.map_cons, List.mem_cons]
    rw [indexed]
    by_cases h : key d ∈ seen
    · have hstep := @List.filter_cons_of_neg (Nat × D)
        (fun p => !decide (key p.2 ∈ seen ∨ key p.2 ∈ ((d :: ds).take (p.1 - n)).map key))
        (n, d) (indexed (n + 1) ds) (by simp [h])
      rw [hstep, filterDupAux, if_pos h, filterDupAux_indexed ds seen (n + 1)]
      congr 1
      refine List.filter_congr ?_
      intro p hp
      simp only [htail p hp seen]
      refine congrArg (fun b => !b) (decide_eq_decide.mpr ?_)
      constructor
      · rintro (hs | ht)
        · exact Or.inl hs
        · exact Or.inr (Or.inr ht)
      · rintro (hs | heq | ht)
        · exact Or.inl hs
        · exact Or.inl (heq ▸ h)
        · exact Or.inr ht
    · have hstep := @List.filter_cons_of_pos (Nat × D)
        (fun p => !decide (key p.2 ∈ seen ∨ key p.2 ∈ ((d :: ds).take (p.1 - n)).map key))
        (n, d) (indexed (n + 1) ds) (by simp [h, Nat.sub_self])
      rw [hstep, filterDupAux, if_neg h,
        filterDupAux_indexed ds (key d :: seen) (n + 1), List.map_cons]
      congr 2
      refine List.filter_congr ?_
      intro p hp
      simp only [htail p hp seen]
      refine congrArg (fun b => !b) (decide_eq_decide.mpr ?_)
      simp only [List.mem_cons]
      tauto

/-- Keys of surviving documents never come from the initial `seen` set. -/
theorem filterDupAux_key_not_seen :
    ∀ (l : List D) (seen : List K) (x : K),
      x ∈ (filterDupAux key l seen).map key → x ∉ seen
  | [], _, _ => by simp [filterDupAux]
  | d :: ds, seen, x => by
    by_cases h : key d ∈ seen
    · simp only [filterDupAux, if_pos h]
      exact filterDupAux_key_not_seen ds seen x
    · simp only [filterDupAux, if_neg h, List.map_cons, List.mem_cons]
      rintro (rfl | hx)
      · exact h
      · intro hs
        exact filterDupAux_key_not_seen ds (key d :: seen) x hx (List.mem_cons_of_mem _ hs)

/-- The surviving documents have pairwise distinct keys. -/
theorem filterDupAux_nodup_keys :
    ∀ (l : List D) (seen : List K), ((filterDupAux key l seen).map key).Nodup
  | [], _ => by simp [filterDupAux]
  | d :: ds, seen => by
    by_cases h : key d ∈ seen
    · simp only [filterDupAux, if_pos h]
      exact filterDupAux_nodup_keys ds seen
    · simp only [filterDupAux, if_neg h, List.map_cons, List.nodup_cons]
      refine ⟨?_, filterDupAux_nodup_keys ds (key d :: seen)⟩
      intro hc
      exact filterDupAux_key_not_seen key ds (key d :: seen) (key d) hc (List.mem_cons_self _ _)

/-- The scan only drops documents: the result is a sublist (same relative
order) of the input. -/
theorem filterDupAux_sublist :
    ∀ (l : List D) (seen : List K), (filterDupAux key l seen).Sublist l
  | [], _ => List.Sublist.refl []
  | d :: ds, seen => by
    by_cases h : key d ∈ seen
    · simp only [filterDupAux, if_pos h]
      exact (filterDupAux_sublist ds seen).cons d
    · simp only [filterDupAux, if_neg h]
      exact (filterDupAux_sublist ds (key d :: seen)).cons₂ d

/-- Scanning a concatenation: the first part behaves as alone, the second
is scanned with all keys of the first already seen. -/
theorem filterDupAux_append :
    ∀ (a b : List D) (seen : List K),
      filterDupAux key (a ++ b) seen =
        filterDupAux key a seen ++ filterDupAux key b (a.map key ++ seen)
  | [], b, seen => by simp [filterDupAux]
  | d :: as, b, seen => by
    by_cases h : key d ∈ seen
    · simp only [List.cons_append, filterDupAux, List.append_eq, if_pos h]
      rw [filterDupAux_append as b seen]
      refine congrArg _ (filterDupAux_congr key b _ _ ?_)
      intro x
      simp only [List.map_cons, List.cons_append, List.mem_cons, List.mem_append]
      constructor
      · rintro (hs | hx) <;> tauto
      · rintro (rfl | hs | hx) <;> tauto
    · simp only [List.cons_append, filterDupAux, List.append_eq, if_neg h]
      rw [filterDupAux_append as b (key d :: seen)]
      refine congrArg _ (congrArg _ (filterDupAux_congr key b _ _ ?_))
      intro x
      simp only [List.map_cons, List.cons_append, List.mem_cons, List.mem_append]
      tauto

/-- A scan over documents with pairwise distinct keys, none already seen,
keeps everything. -/
theorem filterDupAux_of_nodup :
    ∀ (l : List D) (seen : List K), (l.map key).Nodup → (∀ d ∈ l, key d ∉ seen) →
      filterDupAux key l seen = l
  | [], _, _, _ => rfl
  | d :: ds, seen, hnd, hns => by
    have h : key d ∉ seen := hns d (List.mem_cons_self _ _)
    simp only [List.map_cons, List.nodup_cons] at hnd
    simp only [filterDupAux, if_neg h]
    refine congrArg _ (filterDupAux_of_nodup ds (key d :: seen) hnd.2 ?_)
    intro e he
    simp only [List.mem_cons]
    rintro (hc | hc)
    · exact hnd.1 (hc ▸ List.mem_map_of_mem key he)
    · exact hns e (List.mem_cons_of_mem _ he) hc

/-- If every key of `l` is already seen, the scan drops everything. -/
theorem filterDupAux_all_seen :
    ∀ (l : List D) (seen : List K), (∀ d ∈ l, key d ∈ seen) →
      filterDupAux key l seen = []
  | [], _, _ => rfl
  | d :: ds, seen, h => by
    have hd : key d ∈ seen := h d (List.mem_cons_self _ _)
    simp only [filterDupAux, if_pos hd]
    exact filterDupAux_all_seen ds seen (fun e he => h e (List.mem_cons_of_mem _ he))

end FilterDup

/-! ## Lemmas on `pyReplaceDel` -/

theorem leadsWith_append (old : List Char) : ∀ s : List Char, leadsWith old (old ++ s) = true := by
  induction old with
  | nil => intro s; rfl
  | cons c cs ih =>
    intro s
    simp only [List.cons_append, leadsWith, beq_self_eq_true, Bool.true_and]
    exact ih s

theorem leadsWith_of_hasOccur_cons {old : List Char} {c : Char} {cs : List Char}
    (h : hasOccur old (c :: cs) = false) : leadsWith old (c :: cs) = false := by
  by_cases hl : leadsWith old (c :: cs) = true
  · rw [hasOccur, hl, Bool.true_or] at h
    exact absurd h (by simp)
  · exact Bool.not_eq_true _ ▸ hl

theorem hasOccur_of_cons {old : List Char} {c : Char} {cs : List Char}
    (h : hasOccur old (c :: cs) = false) : hasOccur old cs = false := by
  rw [hasOccur, Bool.or_eq_false_iff] at h
  exact h.2

/-- No occurrence of `old` in `s`: the deletion scan copies `s` verbatim. -/
theorem delOccAux_of_no_occur (old : List Char) :
    ∀ s : List Char, hasOccur old s = false → delOccAux old 0 s = s
  | [], _ => rfl
  | c :: cs, h => by
    rw [delOccAux, if_neg (by rw [leadsWith_of_hasOccur_cons h]; simp)]
    exact congrArg _ (delOccAux_of_no_occur old cs (hasOccur_of_cons h))

/-- While `skip` characters remain to be dropped, the scan just drops them. -/
theorem delOccAux_skip (old : List Char) :
    ∀ (l s : List Char), delOccAux old l.length (l ++ s) = delOccAux old 0 s
  | [], s => rfl
  | c :: cs, s => by
    simp only [List.length_cons, List.cons_append, delOccAux]
    exact delOccAux_skip old cs s

/-- A leading occurrence of a nonempty `old` is deleted whole. -/
theorem delOccAux_front {old : List Char} (hne : old ≠ []) (s : List Char) :
    delOccAux old 0 (old ++ s) = delOccAux old 0 s := by
  match old, hne with
  | c :: cs, _ =>
    have hl := leadsWith_append (c :: cs) s
    rw [List.cons_append] at hl
    rw [List.cons_append, delOccAux, if_pos hl]
    simp only [List.length_cons, Nat.add_sub_cancel]
    exact delOccAux_skip (c :: cs) cs s

theorem pyReplaceDel_of_no_occur {old s : List Char} (h : hasOccur old s = false) :
    pyReplaceDel old s = s := by
  rw [pyReplaceDel]
  by_cases he : old.isEmpty
  · rw [if_pos he]
  · rw [if_neg he]
    exact delOccAux_of_no_occur old s h

theorem pyReplaceDel_front {old : List Char} (hne : old ≠ []) {s : List Char}
    (h : hasOccur old s = false) : pyReplaceDel old (old ++ s) = s := by
  rw [pyReplaceDel, if_neg (by simp [List.isEmpty_iff, hne]), delOccAux_front hne s]
  exact delOccAux_of_no_occur old s h

/-! ## Lemmas on `popKey` -/

section PopKey

variable {V : Type}

theorem popKey_fst_eq_none (k : String) :
    ∀ kw : List (String × V), (popKey k kw).1 = none ↔ k ∉ kw.map Prod.fst
  | [] => by simp [popKey]
  | (k', v) :: rest => by
    by_cases h : k' = k
    · subst h
      simp [popKey]
    · simp only [popKey, if_neg h, List.map_cons, List.mem_cons]
      rw [popKey_fst_eq_none k rest]
      constructor
      · intro hn hc
        rcases hc with hc | hc
        · exact h hc.symm
        · exact hn hc
      · intro hn
        exact fun hc => hn (Or.inr hc)

/-- On a dictionary (distinct keys), popping `k` removes exactly the
entries named `k`. -/
theorem popKey_snd_of_nodup (k : String) :
    ∀ kw : List (String × V), (kw.map Prod.fst).Nodup →
      (popKey k kw).2 = kw.filter (fun e => !decide (e.1 = k))
  | [], _ => rfl
  | (k', v) :: rest, hnd => by
    simp only [List.map_cons, List.nodup_cons] at hnd
    by_cases h : k' = k
    · subst h
      simp only [popKey, if_pos rfl]
      rw [List.filter_cons_of_neg (by simp)]
      refine (List.filter_eq_self.mpr ?_).symm
      intro e he
      have : e.1 ≠ k' := fun hc => hnd.1 (hc ▸ List.mem_map_of_mem Prod.fst he)
      simp [this]
    · simp only [popKey, if_neg h]
      rw [List.filter_cons_of_pos (by simp [h])]
      exact congrArg _ (popKey_snd_of_nodup k rest hnd.2)

/-- Popping preserves distinctness of the remaining keys. -/
theorem popKey_snd_nodup (k : String) (kw : List (String × V))
    (hnd : (kw.map Prod.fst).Nodup) : ((popKey k kw).2.map Prod.fst).Nodup := by
  rw [popKey_snd_of_nodup k kw hnd]
  exact ((List.filter_sublist kw).map Prod.fst).nodup hnd

end PopKey

/-- Keys of the dictionary left by removing the entry named `k` are the
keys other than `k`. -/
theorem map_fst_filter_key {V : Type} (k : String) :
    ∀ kw : List (String × V),
      (kw.filter (fun e => !decide (e.1 = k))).map Prod.fst =
        (kw.map Prod.fst).filter (fun t => !decide (t = k))
  | [] => rfl
  | (k', v) :: rest => by
    by_cases h : k' = k
    · rw [List.filter_cons_of_neg (by simp [h]), List.map_cons,
        List.filter_cons_of_neg (by simp [h])]
      exact map_fst_filter_key k rest
    · rw [List.filter_cons_of_pos (by simp [h]), List.map_cons, List.map_cons,
        List.filter_cons_of_pos (by simp [h])]
      exact congrArg _ (map_fst_filter_key k rest)

/-- Keys of the dictionary of unrecognized entries are the unrecognized
keys. -/
theorem map_fst_filter_names {V : Type} (names : List String) :
    ∀ kw : List (String × V),
      (kw.filter (fun e => !decide (e.1 ∈ names))).map Prod.fst =
        (kw.map Prod.fst).filter (fun t => !decide (t ∈ names))
  | [] => rfl
  | (k', v) :: rest => by
    by_cases h : k' ∈ names
    · rw [List.filter_cons_of_neg (by simp [h]), List.map_cons,
        List.filter_cons_of_neg (by simp [h])]
      exact map_fst_filter_names names rest
    · rw [List.filter_cons_of_pos (by simp [h]), List.map_cons, List.map_cons,
        List.filter_cons_of_pos (by simp [h])]
      exact congrArg _ (map_fst_filter_names names rest)

/-- A pop of a present key returns a value. -/
theorem popKey_fst_eq_some {V : Type} (k : String) (kw : List (String × V))
    (h : k ∈ kw.map Prod.fst) : ∃ v, (popKey k kw).1 = some v := by
  cases hval : (popKey k kw).1 with
  | none => exact absurd h ((popKey_fst_eq_none k kw).mp hval)
  | some v => exact ⟨v, rfl⟩

/-- The dictionary remaining after popping each name of `names` in turn
(the shape of the pop chains in the three constructors). -/
def popAll {V : Type} (names : List String) (kw : List (String × V)) : List (String × V) :=
  names.foldl (fun acc k => (popKey k acc).2) kw

/-- On a dictionary, the pop chain leaves exactly the entries whose name
is in none of the popped names. -/
theorem popAll_eq_filter {V : Type} :
    ∀ (names : List String) (kw : List (String × V)), (kw.map Prod.fst).Nodup →
      popAll names kw = kw.filter (fun e => !decide (e.1 ∈ names))
  | [], kw, _ => by
    refine (List.filter_eq_self.mpr ?_).symm
    intro e _
    simp
  | k :: ks, kw, hnd => by
    show popAll ks ((popKey k kw).2) = _
    rw [popKey_snd_of_nodup k kw hnd]
    have hnd2 : ((kw.filter (fun e => !decide (e.1 = k))).map Prod.fst).Nodup :=
      ((List.filter_sublist kw).map Prod.fst).nodup hnd
    rw [popAll_eq_filter ks (kw.filter (fun e => !decide (e.1 = k))) hnd2,
      List.filter_filter]
    refine List.filter_congr ?_
    intro e _
    by_cases h1 : e.1 = k <;> by_cases h2 : e.1 ∈ ks <;> simp [h1, h2]

/-- `document_init` on a dictionary holding `id` and `title`: it reaches
the leftover check, and succeeds or reports the first leftover name
according to the entries with unrecognized names. -/
theorem document_init_reduce {V : Type} (kw : List (String × V))
    (hnd : (kw.map Prod.fst).Nodup)
    (hid : "id" ∈ kw.map Prod.fst) (htitle : "title" ∈ kw.map Prod.fst) :
    ∃ d : Document V V,
      document_init kw =
        match kw.filter (fun e => !decide (e.1 ∈ docFieldNames)) with
        | [] => Except.ok d
        | (kk, _) :: _ => Except.error (unexpectedMsg kk) := by
  obtain ⟨v1, hv1⟩ := popKey_fst_eq_some "id" kw hid
  have hpair1 : popKey "id" kw = (some v1, (popKey "id" kw).2) := by
    rw [← hv1]
  have htitle1 : "title" ∈ ((popKey "id" kw).2).map Prod.fst := by
    rw [popKey_snd_of_nodup "id" kw hnd, map_fst_filter_key]
    exact List.mem_filter.mpr ⟨htitle, by decide⟩
  obtain ⟨v2, hv2⟩ := popKey_fst_eq_some "title" _ htitle1
  have hpair2 : popKey "title" ((popKey "id" kw).2) =
      (some v2, (popKey "title" ((popKey "id" kw).2)).2) := by
    rw [← hv2]
  have hrem : popAll docFieldNames kw =
      kw.filter (fun e => !decide (e.1 ∈ docFieldNames)) :=
    popAll_eq_filter docFieldNames kw hnd
  have hNest : popAll docFieldNames kw =
      (popKey "publisher" (popKey "language" (popKey "internal" (popKey "citation_count" (popKey "source_type" (popKey "source" (popKey "year" (popKey "references" (popKey "abstract" (popKey "keywords" (popKey "authors" (popKey "title" (popKey "id" kw).2).2).2).2).2).2).2).2).2).2).2).2).2 := rfl
  exact ⟨_, by
    unfold document_init
    rw [hpair1]
    simp only []
    rw [hpair2]
    simp only []
    rw [← hrem, hNest]⟩

/-- `author_init` on a dictionary holding `name`: it reaches the leftover
check, succeeding or reporting the first leftover name. -/
theorem author_init_reduce {V : Type} (kw : List (String × V))
    (hnd : (kw.map Prod.fst).Nodup) (hname : "name" ∈ kw.map Prod.fst) :
    ∃ a : Author V,
      author_init kw =
        match kw.filter (fun e => !decide (e.1 ∈ authorFieldNames)) with
        | [] => Except.ok a
        | (kk, _) :: _ => Except.error (unexpectedMsg kk) := by
  have hname1 : "name" ∈ ((popKey "orcid" kw).2).map Prod.fst := by
    rw [popKey_snd_of_nodup "orcid" kw hnd, map_fst_filter_key]
    exact List.mem_filter.mpr ⟨hname, by decide⟩
  obtain ⟨v1, hv1⟩ := popKey_fst_eq_some "name" _ hname1
  have hpair1 : popKey "name" ((popKey "orcid" kw).2) =
      (some v1, (popKey "name" ((popKey "orcid" kw).2)).2) := by
    rw [← hv1]
  have hrem : popAll authorFieldNames kw =
      kw.filter (fun e => !decide (e.1 ∈ authorFieldNames)) :=
    popAll_eq_filter authorFieldNames kw hnd
  have hNest : popAll authorFieldNames kw =
      (popKey "affiliations" (popKey "name" (popKey "orcid" kw).2).2).2 := rfl
  exact ⟨_, by
    unfold author_init
    simp only []
    rw [hpair1]
    simp only []
    rw [← hrem, hNest]⟩

/-- `affiliation_init` on a dictionary holding `name`: it reaches the
leftover check, succeeding or reporting the first leftover name. -/
theorem affiliation_init_reduce {V : Type} (kw : List (String × V))
    (hnd : (kw.map Prod.fst).Nodup) (hname : "name" ∈ kw.map Prod.fst) :
    ∃ a : Affiliation V,
      affiliation_init kw =
        match kw.filter (fun e => !decide (e.1 ∈ affiliationFieldNames)) with
        | [] => Except.ok a
        | (kk, _) :: _ => Except.error (unexpectedMsg kk) := by
  obtain ⟨v1, hv1⟩ := popKey_fst_eq_some "name" kw hname
  have hpair1 : popKey "name" kw = (some v1, (popKey "name" kw).2) := by
    rw [← hv1]
  have hrem : popAll affiliationFieldNames kw =
      kw.filter (fun e => !decide (e.1 ∈ affiliationFieldNames)) :=
    popAll_eq_filter affiliationFieldNames kw hnd
  have hNest : popAll affiliationFieldNames kw =
      (popKey "country" (popKey "city" (popKey "name" kw).2).2).2 := rfl
  exact ⟨_, by
    unfold affiliation_init
    rw [hpair1]
    simp only []
    rw [← hrem, hNest]⟩

/-- A constructor that has reached the leftover check succeeds exactly
when every supplied name is recognized, and otherwise fails with the
`KeyError` naming the first unrecognized name. -/
theorem init_filter_cases {V R : Type} (names : List String) (kw : List (String × V))
    (f : Except String R) (d : R)
    (hred : f =
      match kw.filter (fun e => !decide (e.1 ∈ names)) with
      | [] => Except.ok d
      | (kk, _) :: _ => Except.error (unexpectedMsg kk)) :
    ((∀ e ∈ kw, e.1 ∈ names) → f.isOk = true)
      ∧ ((∃ s ∈ kw.map Prod.fst, s ∉ names) →
          f = Except.error (unexpectedMsg (firstBad names kw))
            ∧ firstBad names kw ∈ kw.map Prod.fst
            ∧ firstBad names kw ∉ names) := by
  constructor
  · intro hall
    have hfil : kw.filter (fun e => !decide (e.1 ∈ names)) = [] :=
      List.filter_eq_nil_iff.mpr (fun e he => by simp [hall e he])
    rw [hred, hfil]
    rfl
  · rintro ⟨s, hs, hsbad⟩
    have hkeys := map_fst_filter_names names kw
    have hsmem : s ∈ (kw.map Prod.fst).filter (fun t => !decide (t ∈ names)) :=
      List.mem_filter.mpr ⟨hs, by simp [hsbad]⟩
    cases hfil : kw.filter (fun e => !decide (e.1 ∈ names)) with
    | nil =>
      rw [hfil] at hkeys
      rw [← hkeys] at hsmem
      simp at hsmem
    | cons hd rest =>
      obtain ⟨kk, vv⟩ := hd
      rw [hfil, List.map_cons] at hkeys
      have hhead : firstBad names kw = kk := by
        rw [firstBad, ← hkeys]
        rfl
      have hkmem : kk ∈ (kw.map Prod.fst).filter (fun t => !decide (t ∈ names)) := by
        rw [← hkeys]
        exact List.mem_cons_self _ _
      have hk2 := List.mem_filter.mp hkmem
      refine ⟨?_, hhead ▸ hk2.1, hhead ▸ (by simpa using hk2.2)⟩
      rw [hred, hfil, hhead]

/-- Among documents with pairwise distinct keys, at most one has any
given key `c`. -/
theorem length_filter_key_le_one {D K : Type} [DecidableEq K] (key : D → K) (c : K) :
    ∀ l : List D, (l.map key).Nodup → (l.filter (fun d => decide (key d = c))).length ≤ 1
  | [], _ => by simp
  | d :: ds, hnd => by
    simp only [List.map_cons, List.nodup_cons] at hnd
    by_cases h : key d = c
    · rw [List.filter_cons_of_pos (by simp [h])]
      have hnil : ds.filter (fun d => decide (key d = c)) = [] := by
        refine List.filter_eq_nil_iff.mpr ?_
        intro e he hc
        have he2 : key e = key d := by rw [of_decide_eq_true hc, h]
        exact hnd.1 (he2 ▸ List.mem_map_of_mem key he)
      simp [hnil]
    · rw [List.filter_cons_of_neg (by simp [h])]
      exact length_filter_key_le_one key c ds hnd.2

/-! ## The claims -/

/-- C1: for every DocumentSet `C` and key function `k`,
`C.filter_duplicates(k)` has pairwise distinct keys, keeps the relative
order of `C` (it is a sublist), and keeps a document exactly when its key
has not occurred at an earlier position of `C` (first-occurrence-wins);
when no key is supplied the default key is the document's identifier
value `document.id.id`. -/
theorem claim_C1_filter_duplicates {D K : Type} [DecidableEq K] (k : D → K)
    (C : DocumentSet D) :
    (((C.filter_duplicates k).docs.map k).Nodup
      ∧ (C.filter_duplicates k).docs.Sublist C.docs
      ∧ (C.filter_duplicates k).docs =
          ((indexed 0 C.docs).filter
            (fun p => !decide (k p.2 ∈ (C.docs.take p.1).map k))).map Prod.snd)
    ∧ ∀ (V : Type) (Cd : DocumentSet (Document DocumentID V)),
        Cd.filter_duplicatesPy none = Cd.filter_duplicates default_key := by
  refine ⟨⟨filterDupAux_nodup_keys k C.docs [], filterDupAux_sublist k C.docs [], ?_⟩,
    fun V Cd => rfl⟩
  show filterDupAux k C.docs [] = _
  rw [filterDupAux_indexed k C.docs [] 0]
  congr 1
  refine List.filter_congr ?_
  intro p _
  simp

/-- C2: `A.union(B, k)` is the concatenation `A.docs ++ B.docs` passed
through `filter_duplicates(k)`; the deduplication of `A` alone is a
prefix of the union, and a document of `B` survives exactly when its key
occurs neither in `A` nor at an earlier position of `B`; a `None` key
defaults as in `filter_duplicates`. -/
theorem claim_C2_union {D K : Type} [DecidableEq K] (k : D → K) (A B : DocumentSet D) :
    ((A.union B k).docs = ((DocumentSet.mk (A.docs ++ B.docs)).filter_duplicates k).docs
      ∧ (A.union B k).docs =
          (A.filter_duplicates k).docs ++
            ((indexed 0 B.docs).filter
              (fun p => !decide (k p.2 ∈ A.docs.map k ∨ k p.2 ∈ (B.docs.take p.1).map k))).map
              Prod.snd
      ∧ (A.filter_duplicates k).docs <+: (A.union B k).docs)
    ∧ ∀ (V : Type) (Ad Bd : DocumentSet (Document DocumentID V)),
        Ad.unionPy Bd none = Ad.union Bd default_key := by
  have hmain : (A.union B k).docs =
      (A.filter_duplicates k).docs ++
        ((indexed 0 B.docs).filter
          (fun p => !decide (k p.2 ∈ A.docs.map k ∨ k p.2 ∈ (B.docs.take p.1).map k))).map
          Prod.snd := by
    show filterDupAux k (A.docs ++ B.docs) [] = _
    rw [filterDupAux_append k A.docs B.docs [], List.append_nil]
    refine congrArg (fun l => filterDupAux k A.docs [] ++ l) ?_
    rw [filterDupAux_indexed k B.docs (A.docs.map k) 0]
    congr 1
  exact ⟨⟨rfl, hmain, ⟨_, hmain.symm⟩⟩, fun V Ad Bd => rfl⟩

/-- C3: `A.difference(B, k)` keeps, in `A`'s order, exactly the documents
of `A` whose key does not occur among `B`'s keys: it is a key-membership
filter (stated by the filter equation and the count identity, which shows
internal duplicates of `A` are retained with their multiplicity), its
result is a sublist of `A`, and no surviving document has a key of `B`;
a `None` key defaults to the identifier value. -/
theorem claim_C3_difference {D K : Type} [DecidableEq D] [DecidableEq K] (k : D → K)
    (A B : DocumentSet D) :
    ((A.difference B k).docs = A.docs.filter (fun d => !decide (k d ∈ B.docs.map k))
      ∧ (A.difference B k).docs.Sublist A.docs
      ∧ (A.difference B k).docs.filter (fun d => decide (k d ∈ B.docs.map k)) = []
      ∧ ∀ d : D, (A.difference B k).docs.count d =
          if k d ∈ B.docs.map k then 0 else A.docs.count d)
    ∧ ∀ (V : Type) (Ad Bd : DocumentSet (Document DocumentID V)),
        Ad.differencePy Bd none = Ad.difference Bd default_key := by
  have hdef : (A.difference B k).docs =
      A.docs.filter (fun d => !decide (k d ∈ B.docs.map k)) := rfl
  refine ⟨⟨hdef, hdef ▸ List.filter_sublist A.docs, ?_, ?_⟩, fun V Ad Bd => rfl⟩
  · rw [hdef, List.filter_filter]
    refine List.filter_eq_nil_iff.mpr ?_
    intro a _
    simp
  · intro d
    by_cases hd : k d ∈ B.docs.map k
    · rw [if_pos hd]
      refine List.count_eq_zero.mpr ?_
      intro hc
      rw [hdef] at hc
      have hm := List.mem_filter.mp hc
      simp [hd] at hm
    · rw [if_neg hd, hdef]
      exact List.count_filter (by simp [hd])

/-- C8: `C.filter(p)` keeps, in original order, exactly the documents at
positions whose document satisfies `p` (position-level characterization),
and filtering with the constantly-true predicate returns the same
document list.  The receiver is not mutated: the operation constructs a
new `DocumentSet` from a pure list comprehension. -/
theorem claim_C8_filter {D : Type} (p : D → Bool) (C : DocumentSet D) :
    (C.filter p).docs = ((indexed 0 C.docs).filter (fun q => p q.2)).map Prod.snd
      ∧ (C.filter (fun _ => true)).docs = C.docs := by
  constructor
  · exact (indexed_filter_snd p C.docs 0).symm
  · show C.docs.filter (fun _ => true) = C.docs
    simp

/-- C9: `filter_duplicates` is idempotent: a second pass with the same
key keeps every document of the first pass, in the same order. -/
theorem claim_C9_filter_duplicates_idempotent {D K : Type} [DecidableEq K] (k : D → K)
    (C : DocumentSet D) :
    (C.filter_duplicates k).filter_duplicates k = C.filter_duplicates k := by
  show DocumentSet.mk (filterDupAux k (filterDupAux k C.docs []) []) =
    DocumentSet.mk (filterDupAux k C.docs [])
  refine congrArg DocumentSet.mk ?_
  exact filterDupAux_of_nodup k (filterDupAux k C.docs []) []
    (filterDupAux_nodup_keys k C.docs []) (by simp)

/-- C10: `DocumentID()` (no argument) has `id = None` and
`is_doi = False`; under the default key of `filter_duplicates`, any
result contains at most one document whose identifier value is `None`,
and if every document of `C` has an unparsed (`None`) identifier, only
the first document survives and all later ones are dropped. -/
theorem claim_C10_default_id_collapses {V : Type} :
    DocumentID.initDefault = { id := none, is_doi := false }
      ∧ (∀ C : DocumentSet (Document DocumentID V),
          ((C.filter_duplicatesPy none).docs.filter
            (fun d => decide (d.id.id = none))).length ≤ 1)
      ∧ ∀ C : DocumentSet (Document DocumentID V),
          (∀ d ∈ C.docs, d.id.id = none) →
            (C.filter_duplicatesPy none).docs = C.docs.take 1 := by
  refine ⟨rfl, ?_, ?_⟩
  · intro C
    exact length_filter_key_le_one default_key none (filterDupAux default_key C.docs [])
      (filterDupAux_nodup_keys default_key C.docs [])
  · intro C h
    obtain ⟨docs⟩ := C
    show filterDupAux default_key docs [] = docs.take 1
    cases docs with
    | nil => rfl
    | cons d rest =>
      have hdk : default_key d = none := h d (List.mem_cons_self _ _)
      have hcond : ¬ default_key d ∈ ([] : List (Option Str)) := by simp
      rw [List.take_succ_cons, List.take_zero]
      simp only [filterDupAux, if_neg hcond]
      refine congrArg (fun l => d :: l) ?_
      refine filterDupAux_all_seen default_key rest [default_key d] ?_
      intro e he
      rw [show default_key e = none from h e (List.mem_cons_of_mem _ he), hdk]
      exact List.mem_cons_self _ _

/-- C4 counterexample: the code applies Python `str.replace`, which also
removes a *non-leading* occurrence of `"http://doi.org/"`: for the DOI
value `"ahttp://doi.org/b"` the resolver yields `"ab"`, whereas
stripping only a front prefix (the claim) would leave the value
unchanged. -/
theorem claim_C4_counterexample :
    DocumentID.parse_bibtex DocumentID.initDefault
        (BibtexEntry.mk (some "ahttp://doi.org/b".toList) none) =
      Except.ok { id := some "ab".toList, is_doi := true }
      ∧ "ab".toList ≠ "ahttp://doi.org/b".toList := by
  exact ⟨rfl, by decide⟩

/-- C4 (amended): with a DOI field present, `parse_bibtex` sets
`isPersistentId = true` and removes *every* occurrence of the two known
URL-prefix strings from the value (Python `str.replace`), first
`"http://doi.org/"`, then `"http://doi.ieeecomputersociety.org/"`; in
particular, when the value is one of the prefixes followed by text with
no further occurrence of either prefix, the result is exactly that
text (so `"http://doi.org/10.1/xyz"` resolves to `"10.1/xyz"`). -/
theorem claim_C4_parse_bibtex (t : Option Str) :
    (∀ v : Str,
        DocumentID.parse_bibtex DocumentID.initDefault (BibtexEntry.mk (some v) t) =
          Except.ok { id := some (pyReplaceDel doiUrl2 (pyReplaceDel doiUrl1 v)), is_doi := true })
      ∧ (∀ s : Str, hasOccur doiUrl1 s = false → hasOccur doiUrl2 s = false →
          DocumentID.parse_bibtex DocumentID.initDefault
              (BibtexEntry.mk (some (doiUrl1 ++ s)) t) =
            Except.ok { id := some s, is_doi := true })
      ∧ (∀ s : Str, hasOccur doiUrl1 (doiUrl2 ++ s) = false → hasOccur doiUrl2 s = false →
          DocumentID.parse_bibtex DocumentID.initDefault
              (BibtexEntry.mk (some (doiUrl2 ++ s)) t) =
            Except.ok { id := some s, is_doi := true }) := by
  refine ⟨fun v => rfl, ?_, ?_⟩
  · intro s h1 h2
    show Except.ok
        ({ id := some (pyReplaceDel doiUrl2 (pyReplaceDel doiUrl1 (doiUrl1 ++ s))),
           is_doi := true } : DocumentID) = _
    rw [pyReplaceDel_front (by decide) h1, pyReplaceDel_of_no_occur h2]
  · intro s h1 h2
    show Except.ok
        ({ id := some (pyReplaceDel doiUrl2 (pyReplaceDel doiUrl1 (doiUrl2 ++ s))),
           is_doi := true } : DocumentID) = _
    rw [pyReplaceDel_of_no_occur h1, pyReplaceDel_front (by decide) h2]

/-- Witness for C4 at the spec's example: DOI
`"http://doi.org/10.1/xyz"` resolves to `"10.1/xyz"` with
`isPersistentId = true`. -/
theorem claim_C4_witness :
    DocumentID.parse_bibtex DocumentID.initDefault
        (BibtexEntry.mk (some (doiUrl1 ++ "10.1/xyz".toList)) none) =
      Except.ok { id := some "10.1/xyz".toList, is_doi := true } :=
  (claim_C4_parse_bibtex none).2.1 ("10.1/xyz".toList) (by decide) (by decide)

/-- C5: for a DBLP record whose nested title field is reachable (the
spec makes reaching the title fallback with no title available a caller
precondition), a reachable nested DOI gives
`identifier = doi, isPersistentId = true`; a missing `"doi"` key is
caught internally — no error reaches the caller — and
`identifier = title, isPersistentId = false`. -/
theorem claim_C5_parse_dblp (r : DblpResult) (inf : DblpInfo) (t : Str)
    (h1 : r.info = some inf) (h2 : inf.title = some t) :
    (∀ d : Str, inf.doi = some d →
        DocumentID.parse_dblp DocumentID.initDefault r =
          Except.ok { id := some d, is_doi := true })
      ∧ (inf.doi = none →
          DocumentID.parse_dblp DocumentID.initDefault r =
            Except.ok { id := some t, is_doi := false }) := by
  constructor
  · intro d hd
    simp [DocumentID.parse_dblp, dictGet, Except.bind, Except.map, h1, hd]
  · intro hd
    simp [DocumentID.parse_dblp, dictGet, Except.bind, Except.map, h1, h2, hd,
      DocumentID.initDefault, DocumentID.init]

/-- Witness for C5 at a concrete record with `info` present, `doi`
absent, `title = "T"`: no error escapes and the title is used. -/
theorem claim_C5_witness :
    DocumentID.parse_dblp DocumentID.initDefault
        (DblpResult.mk (some (DblpInfo.mk none (some "T".toList)))) =
      Except.ok { id := some "T".toList, is_doi := false } :=
  (claim_C5_parse_dblp _ (DblpInfo.mk none (some "T".toList)) ("T".toList) rfl rfl).2 rfl

/-- C6 counterexample: an `eid` that is present but the empty string is
*falsy*, so the code falls through to the title: for
`{doi: "", eid: "", title: "T"}` the resolver yields `"T"`, not the
present eid value `""` the claim prescribes. -/
theorem claim_C6_counterexample :
    DocumentID.parse_scopus DocumentID.initDefault
        (ScopusAbstract.mk (some []) (some []) (some "T".toList)) =
      { id := some "T".toList, is_doi := false }
      ∧ ({ id := some "T".toList, is_doi := false } : DocumentID) ≠
          { id := some ([] : Str), is_doi := false } := by
  exact ⟨by decide, by decide⟩

/-- C6 (amended): a present and non-empty DOI gives
`identifier = doi, isPersistentId = true`; otherwise a present **and
non-empty** eid gives `identifier = eid, isPersistentId = false`;
otherwise `identifier = title, isPersistentId = false` (both the DOI and
the eid are tested by Python truthiness, so an empty string is treated
as absent for either); in particular `{doi: "", eid: "E123", title: "T"}`
resolves to `"E123"` with `isPersistentId = false`. -/
theorem claim_C6_parse_scopus (a : ScopusAbstract) :
    (∀ v : Str, a.doi = some v → v ≠ [] →
        DocumentID.parse_scopus DocumentID.initDefault a =
          { id := some v, is_doi := true })
      ∧ ((a.doi = none ∨ a.doi = some []) →
          ∀ w : Str, a.eid = some w → w ≠ [] →
            DocumentID.parse_scopus DocumentID.initDefault a =
              { id := some w, is_doi := false })
      ∧ ((a.doi = none ∨ a.doi = some []) → (a.eid = none ∨ a.eid = some []) →
          DocumentID.parse_scopus DocumentID.initDefault a =
            { id := a.title, is_doi := false })
      ∧ DocumentID.parse_scopus DocumentID.initDefault
          (ScopusAbstract.mk (some []) (some "E123".toList) (some "T".toList)) =
          { id := some "E123".toList, is_doi := false } := by
  refine ⟨?_, ?_, ?_, by decide⟩
  · intro v hv hne
    simp [DocumentID.parse_scopus, pyTruthy, hv, List.isEmpty_iff, hne]
  · intro hd w hw hne
    have hdoi : pyTruthy a.doi = false := by
      rcases hd with hd | hd <;> simp [pyTruthy, hd]
    have heid : pyTruthy (some w) = true := by
      simp [pyTruthy, List.isEmpty_iff, hne]
    simp [DocumentID.parse_scopus, hdoi, heid, hw,
      DocumentID.initDefault, DocumentID.init]
  · intro hd he
    have hdoi : pyTruthy a.doi = false := by
      rcases hd with hd | hd <;> simp [pyTruthy, hd]
    have heid : pyTruthy a.eid = false := by
      rcases he with he | he <;> simp [pyTruthy, he]
    simp [DocumentID.parse_scopus, hdoi, heid, DocumentID.initDefault, DocumentID.init]

/-- Witness for C6 at the spec's example `{doi: "", eid: "E123",
title: "T"}`: the eid is used, `isPersistentId = false`. -/
theorem claim_C6_witness :
    DocumentID.parse_scopus DocumentID.initDefault
        (ScopusAbstract.mk (some []) (some "E123".toList) (some "T".toList)) =
      { id := some "E123".toList, is_doi := false } :=
  (claim_C6_parse_scopus (ScopusAbstract.mk (some []) (some "E123".toList)
    (some "T".toList))).2.1 (Or.inr rfl) ("E123".toList) rfl (by decide)

/-- C7: constructing a `Document`, `Author`, or `Affiliation` from a
keyword dictionary (distinct names) holding its required fields: if every
supplied name is recognized the construction raises no error, and if any
supplied name is unrecognized the construction fails with a `KeyError`
whose message names an offending (supplied and unrecognized) field. -/
theorem claim_C7_unknown_field_rejected (V : Type) :
    (∀ kw : List (String × V), (kw.map Prod.fst).Nodup →
        "id" ∈ kw.map Prod.fst → "title" ∈ kw.map Prod.fst →
        ((∀ e ∈ kw, e.1 ∈ docFieldNames) → (document_init kw).isOk = true)
          ∧ ((∃ s ∈ kw.map Prod.fst, s ∉ docFieldNames) →
              document_init kw = Except.error (unexpectedMsg (firstBad docFieldNames kw))
                ∧ firstBad docFieldNames kw ∈ kw.map Prod.fst
                ∧ firstBad docFieldNames kw ∉ docFieldNames))
      ∧ (∀ kw : List (String × V), (kw.map Prod.fst).Nodup → "name" ∈ kw.map Prod.fst →
          ((∀ e ∈ kw, e.1 ∈ authorFieldNames) → (author_init kw).isOk = true)
            ∧ ((∃ s ∈ kw.map Prod.fst, s ∉ authorFieldNames) →
                author_init kw = Except.error (unexpectedMsg (firstBad authorFieldNames kw))
                  ∧ firstBad authorFieldNames kw ∈ kw.map Prod.fst
                  ∧ firstBad authorFieldNames kw ∉ authorFieldNames))
      ∧ (∀ kw : List (String × V), (kw.map Prod.fst).Nodup → "name" ∈ kw.map Prod.fst →
          ((∀ e ∈ kw, e.1 ∈ affiliationFieldNames) → (affiliation_init kw).isOk = true)
            ∧ ((∃ s ∈ kw.map Prod.fst, s ∉ affiliationFieldNames) →
                affiliation_init kw =
                    Except.error (unexpectedMsg (firstBad affiliationFieldNames kw))
                  ∧ firstBad affiliationFieldNames kw ∈ kw.map Prod.fst
                  ∧ firstBad affiliationFieldNames kw ∉ affiliationFieldNames)) := by
  refine ⟨?_, ?_, ?_⟩
  · intro kw hnd hid htitle
    obtain ⟨d, hred⟩ := document_init_reduce kw hnd hid htitle
    exact init_filter_cases docFieldNames kw (document_init kw) d hred
  · intro kw hnd hname
    obtain ⟨a, hred⟩ := author_init_reduce kw hnd hname
    exact init_filter_cases authorFieldNames kw (author_init kw) a hred
  · intro kw hnd hname
    obtain ⟨a, hred⟩ := affiliation_init_reduce kw hnd hname
    exact init_filter_cases affiliationFieldNames kw (affiliation_init kw) a hred

/-- Witness for C7 at concrete dictionaries: the extra field `bogus` (or
`wrong`) is rejected by name; dictionaries with only recognized names
construct successfully. -/
theorem claim_C7_witness :
    document_init [("title", (1 : Nat)), ("id", 2), ("bogus", 3)] =
        Except.error (unexpectedMsg "bogus")
      ∧ (document_init [("title", (1 : Nat)), ("id", 2)]).isOk = true
      ∧ author_init [("name", (1 : Nat)), ("wrong", 2)] = Except.error (unexpectedMsg "wrong")
      ∧ (affiliation_init [("name", (1 : Nat)), ("city", 2)]).isOk = true := by
  have h := claim_C7_unknown_field_rejected Nat
  refine ⟨?_, ?_, ?_, ?_⟩
  · have hb := (h.1 [("title", (1 : Nat)), ("id", 2), ("bogus", 3)] (by decide) (by decide)
      (by decide)).2 ⟨"bogus", by decide, by decide⟩
    have hfb : firstBad docFieldNames [("title", (1 : Nat)), ("id", 2), ("bogus", 3)] =
        "bogus" := by decide
    rw [← hfb]
    exact hb.1
  · exact (h.1 [("title", (1 : Nat)), ("id", 2)] (by decide) (by decide) (by decide)).1
      (by decide)
  · have hb := (h.2.1 [("name", (1 : Nat)), ("wrong", 2)] (by decide) (by decide)).2
      ⟨"wrong", by decide, by decide⟩
    have hfb : firstBad authorFieldNames [("name", (1 : Nat)), ("wrong", 2)] = "wrong" := by
      decide
    rw [← hfb]
    exact hb.1
  · exact (h.2.2 [("name", (1 : Nat)), ("city", 2)] (by decide) (by decide)).1 (by decide)

/-- Witness for C10 at a concrete two-document set with unparsed
identifiers: only the first document survives. -/
theorem claim_C10_witness :
    (DocumentSet.filter_duplicatesPy
        (DocumentSet.mk
          [⟨DocumentID.initDefault, (0 : Nat), none, none, none, none, none, none, none,
             none, none, none, none⟩,
           ⟨DocumentID.initDefault, (1 : Nat), none, none, none, none, none, none, none,
             none, none, none, none⟩])
        none).docs =
      List.take 1
        [⟨DocumentID.initDefault, (0 : Nat), none, none, none, none, none, none, none,
           none, none, none, none⟩,
         ⟨DocumentID.initDefault, (1 : Nat), none, none, none, none, none, none, none,
           none, none, none, none⟩] := by
  exact (@claim_C10_default_id_collapses Nat).2.2 _ (by decide)

end LitStudy
